import Mathlib

/-!
Verification of the two binarization routines of the Binary-image repository
(src/main.py): `global_adaptive_thresholding` and `local_adaptive_thresholding`.

An image is modelled as a list of rows of natural-number intensity samples
(row-major, as numpy stores a 2D uint8 array).  Python floating-point
arithmetic is modelled by exact rational arithmetic over `ℚ`.  The unbounded
`while True` loop of the global method is modelled by a fuel-indexed
recursion returning `none` when the fuel is exhausted, so `some` results are
exactly the runs in which the Python loop terminates within that many
iterations.
-/

/-- All pixels of an image in row-major order, as rationals.
Corresponds to numpy flattening of the 2D array. -/
def pixelsOf (img : List (List ℕ)) : List ℚ :=
  img.flatten.map (Nat.cast : ℕ → ℚ)

/-- Translation of `np.median`: sort ascending, take the middle element for
odd length, the average of the two middle elements for even length. -/
def median (l : List ℚ) : ℚ :=
  let s := l.insertionSort (fun a b => a ≤ b)
  let n := s.length
  if n % 2 = 1 then s.getD (n / 2) 0
  else (s.getD (n / 2 - 1) 0 + s.getD (n / 2) 0) / 2

/-- One refinement step of the global loop body (src/main.py lines 17-26):
split the pixels into `group_low = image[image <= tau]` and
`group_high = image[image > tau]`, take each group's mean (`0` when the
group is empty, matching the `if group.size > 0 else 0` guards), and return
`(mu0 + mu1) / 2`. -/
def tauNew (pixels : List ℚ) (τ : ℚ) : ℚ :=
  let low := pixels.filter (fun p => p ≤ τ)
  let high := pixels.filter (fun p => τ < p)
  let mu0 : ℚ := if low.length = 0 then 0 else low.sum / (low.length : ℚ)
  let mu1 : ℚ := if high.length = 0 then 0 else high.sum / (high.length : ℚ)
  (mu0 + mu1) / 2

/-- The `while True` loop of src/main.py lines 16-31, with explicit fuel.
On the iteration where `|tau - tau_new| <= epsilon` first holds the loop
breaks; the result records the pair `(tau, tau_new)` live at the break, the
first component being the value the convergence check compared against and
the second the freshly computed `tau_new` used afterwards. -/
def gatLoop (pixels : List ℚ) (ε : ℚ) : ℕ → ℚ → Option (ℚ × ℚ)
  | 0, _ => none
  | fuel + 1, τ =>
    let τn := tauNew pixels τ
    if |τ - τn| ≤ ε then some (τ, τn)
    else gatLoop pixels ε fuel τn

/-- Translation of `np.where(image > tau_new, 255, 0)` (src/main.py line 34). -/
def binarize (img : List (List ℕ)) (τ : ℚ) : List (List ℕ) :=
  img.map (fun row => row.map (fun p => if τ < (Nat.cast p : ℚ) then 255 else 0))

/-- Translation of `global_adaptive_thresholding` (src/main.py lines 4-35):
initialize `tau` to the median of all pixels, iterate `gatLoop`, and on
termination binarize against the final `tau_new` (the second component of
the pair returned by the loop). -/
def global_adaptive_thresholding (img : List (List ℕ)) (ε : ℚ) (fuel : ℕ) :
    Option (List (List ℕ)) :=
  (gatLoop (pixelsOf img) ε fuel (median (pixelsOf img))).map
    (fun r => binarize img r.2)

/-- Sample access `img[i][j]` with junk defaults for out-of-range indices
(never exercised on rectangular images at in-range indices). -/
def pixel (img : List (List ℕ)) (i j : ℕ) : ℕ :=
  (img.getD i []).getD j 0

/-- Translation of `cv2.copyMakeBorder(image, pad_h, pad_h, pad_w, pad_w,
cv2.BORDER_REPLICATE)` (src/main.py line 57): the padded sample at `(i, j)`
is the source sample at the clamped coordinates.  Natural-number
subtraction already clamps at `0`, and `min` clamps at the far edge. -/
def borderReplicate (img : List (List ℕ)) (padh padw : ℕ) : List (List ℕ) :=
  let h := img.length
  let w := (img.headD []).length
  (List.range (h + 2 * padh)).map (fun i =>
    (List.range (w + 2 * padw)).map (fun j =>
      pixel img (min (i - padh) (h - 1)) (min (j - padw) (w - 1))))

/-- Translation of the odd-coercion `w_w = w_w if w_w % 2 == 1 else w_w + 1`
(src/main.py lines 51-52). -/
def mkOdd (n : ℕ) : ℕ := if n % 2 = 1 then n else n + 1

/-- Mean of the window `padded[ys : ys + hw, xs : xs + ww]`, with numpy
slicing semantics: `List.drop`/`List.take` silently clip at the array
bounds exactly as numpy slices do.  The `0` branch for an empty window is
junk (never exercised for in-range windows). -/
def windowMean (padded : List (List ℕ)) (ys xs hw ww : ℕ) : ℚ :=
  let vals := (((padded.drop ys).take hw).map
    (fun row => (row.drop xs).take ww)).flatten
  if vals.length = 0 then 0
  else (vals.map (Nat.cast : ℕ → ℚ)).sum / (vals.length : ℚ)

/-- Body of `local_adaptive_thresholding` after the odd-coercion of the
window dimensions (src/main.py lines 54-75).  Note the translated window
placement: the code sets `x_start = x + pad_w` and `y_start = y + pad_h`,
so the window's top-left corner sits at `(x + pad_w, y + pad_h)` in padded
coordinates. -/
def localOdd (img : List (List ℕ)) (ww hw : ℕ) : List (List ℕ) :=
  let h := img.length
  let w := (img.headD []).length
  let padw := ww / 2
  let padh := hw / 2
  let padded := borderReplicate img padh padw
  (List.range h).map (fun y =>
    (List.range w).map (fun x =>
      if windowMean padded (y + padh) (x + padw) hw ww < (pixel img y x : ℚ)
      then 255 else 0))

/-- Translation of `local_adaptive_thresholding` (src/main.py lines 37-75). -/
def local_adaptive_thresholding (img : List (List ℕ)) (w_w h_w : ℕ) :
    List (List ℕ) :=
  localOdd img (mkOdd w_w) (mkOdd h_w)

/-- Spec-side body of the local thresholder, following the specification's
step 3 instead of the code: the `w_w × h_w` window of the padded image has
its top-left corner at offset `(x, y)` in padded coordinates, i.e. it is
centered on the original pixel.  Everything else is as in `localOdd`. -/
def localOddSpec (img : List (List ℕ)) (ww hw : ℕ) : List (List ℕ) :=
  let h := img.length
  let w := (img.headD []).length
  let padw := ww / 2
  let padh := hw / 2
  let padded := borderReplicate img padh padw
  (List.range h).map (fun y =>
    (List.range w).map (fun x =>
      if windowMean padded y x hw ww < (pixel img y x : ℚ)
      then 255 else 0))

/-- Spec-side local thresholder (odd-coercion, then the centered-window
body). -/
def local_adaptive_thresholding_spec (img : List (List ℕ)) (w_w h_w : ℕ) :
    List (List ℕ) :=
  localOddSpec img (mkOdd w_w) (mkOdd h_w)

/-- Spec-side mean of a group: `0` if the group is empty, its arithmetic
mean otherwise (specification section 4.1, step 2). -/
def meanOrZero (g : List ℚ) : ℚ :=
  if g = [] then 0 else g.sum / (g.length : ℚ)

/-- Spec-side refinement step, written with the specification's words:
partition the pixels into the `low` group (intensity at most `tau`) and the
`high` group (the rest), and average the two group means. -/
def tauNewSpec (pixels : List ℚ) (τ : ℚ) : ℚ :=
  let pr := pixels.partition (fun p => p ≤ τ)
  (meanOrZero pr.1 + meanOrZero pr.2) / 2

/-- Spec-side iteration (specification section 4.1, steps 2-3): stop and
return `tau_new` as soon as `|tau - tau_new| ≤ epsilon`, otherwise set
`tau = tau_new` and repeat. -/
def gatLoopSpec (pixels : List ℚ) (ε : ℚ) : ℕ → ℚ → Option ℚ
  | 0, _ => none
  | fuel + 1, τ =>
    let τn := tauNewSpec pixels τ
    if |τ - τn| ≤ ε then some τn
    else gatLoopSpec pixels ε fuel τn

/-- Spec-side global thresholder (specification section 4.1): median
initialization, iteration, binarization against the final `tau_new`. -/
def global_adaptive_thresholding_spec (img : List (List ℕ)) (ε : ℚ)
    (fuel : ℕ) : Option (List (List ℕ)) :=
  (gatLoopSpec (pixelsOf img) ε fuel (median (pixelsOf img))).map
    (fun τn => binarize img τn)

/-- Sum of a list all of whose elements equal `c`. -/
lemma list_sum_of_const (l : List ℚ) (c : ℚ) (h : ∀ x ∈ l, x = c) :
    l.sum = l.length * c := by
  induction l with
  | nil => simp
  | cons a t ih =>
    have ha : a = c := h a (List.mem_cons_self a t)
    have ht : ∀ x ∈ t, x = c := fun x hx => h x (List.mem_cons_of_mem a hx)
    rw [List.sum_cons, ha, ih ht, List.length_cons]
    push_cast
    ring

/-- In-range `getD` on a constant list returns the constant. -/
lemma list_getD_of_const (l : List ℚ) (c : ℚ) (h : ∀ x ∈ l, x = c) (i : ℕ)
    (hi : i < l.length) : l.getD i 0 = c := by
  rw [List.getD_eq_get?, List.get?_eq_get hi, Option.getD_some]
  exact h _ (List.get_mem l i hi)

/-- The median of a non-empty constant list is the constant. -/
lemma median_const (l : List ℚ) (c : ℚ) (hne : l ≠ []) (h : ∀ x ∈ l, x = c) :
    median l = c := by
  have hmem : ∀ x ∈ l.insertionSort (fun a b => a ≤ b), x = c :=
    fun x hx => h x ((List.mem_insertionSort _).1 hx)
  have hlen : (l.insertionSort (fun a b => a ≤ b)).length = l.length :=
    List.length_insertionSort _ l
  have hpos : 0 < (l.insertionSort (fun a b => a ≤ b)).length := by
    rw [hlen]
    exact List.length_pos.2 hne
  have hd2 : (l.insertionSort (fun a b => a ≤ b)).length / 2 <
      (l.insertionSort (fun a b => a ≤ b)).length :=
    Nat.div_lt_self hpos (by norm_num)
  have hd1 : (l.insertionSort (fun a b => a ≤ b)).length / 2 - 1 <
      (l.insertionSort (fun a b => a ≤ b)).length :=
    lt_of_le_of_lt (Nat.sub_le _ _) hd2
  simp only [median]
  split_ifs
  · exact list_getD_of_const _ c hmem _ hd2
  · rw [list_getD_of_const _ c hmem _ hd1, list_getD_of_const _ c hmem _ hd2]
    ring

/-- All pixels of an image whose entries all equal `v` equal `(v : ℚ)`. -/
lemma pixelsOf_const (img : List (List ℕ)) (v : ℕ)
    (h : ∀ row ∈ img, ∀ p ∈ row, p = v) :
    ∀ x ∈ pixelsOf img, x = (v : ℚ) := by
  intro x hx
  rw [pixelsOf] at hx
  obtain ⟨p, hp, hpx⟩ := List.mem_map.1 hx
  obtain ⟨row, hrow, hpin⟩ := List.mem_flatten.1 hp
  have hpv : p = v := h row hrow p hpin
  rw [← hpx, hpv]

/-- On a constant pixel list, one refinement step from the constant value
lands at half of it: the low group is everything, the high group is empty. -/
lemma tauNew_const_self (pixels : List ℚ) (v : ℚ) (hne : pixels ≠ [])
    (h : ∀ x ∈ pixels, x = v) : tauNew pixels v = v / 2 := by
  have hlow : pixels.filter (fun p => p ≤ v) = pixels := by
    apply List.filter_eq_self.2
    intro a ha
    simp [h a ha]
  have hhigh : pixels.filter (fun p => v < p) = [] := by
    apply List.filter_eq_nil.2
    intro a ha
    simp [h a ha]
  have hlen0 : pixels.length ≠ 0 := fun h0 => hne (List.length_eq_zero.1 h0)
  have hlenQ : (pixels.length : ℚ) ≠ 0 := Nat.cast_ne_zero.2 hlen0
  simp only [tauNew, hlow, hhigh, List.length_nil, if_pos rfl, if_neg hlen0]
  rw [list_sum_of_const pixels v h, mul_div_cancel_left₀ v hlenQ]
  simp

/-- On a constant positive pixel list, one refinement step from half the
constant stays at half: the low group is empty, the high group is
everything. -/
lemma tauNew_const_half (pixels : List ℚ) (v : ℚ) (hne : pixels ≠ [])
    (h : ∀ x ∈ pixels, x = v) (hv : 0 < v) :
    tauNew pixels (v / 2) = v / 2 := by
  have hlow : pixels.filter (fun p => p ≤ v / 2) = [] := by
    apply List.filter_eq_nil.2
    intro a ha
    rw [h a ha]
    simp only [decide_eq_true_eq, not_le]
    exact half_lt_self hv
  have hhigh : pixels.filter (fun p => v / 2 < p) = pixels := by
    apply List.filter_eq_self.2
    intro a ha
    rw [h a ha]
    simp only [decide_eq_true_eq]
    exact half_lt_self hv
  have hlen0 : pixels.length ≠ 0 := fun h0 => hne (List.length_eq_zero.1 h0)
  have hlenQ : (pixels.length : ℚ) ≠ 0 := Nat.cast_ne_zero.2 hlen0
  simp only [tauNew, hlow, hhigh, List.length_nil, if_pos rfl, if_neg hlen0]
  rw [list_sum_of_const pixels v h, mul_div_cancel_left₀ v hlenQ]
  simp

/-- On a non-empty constant pixel list with non-negative value and
tolerance, the loop started at the constant terminates within two
iterations and the final `tau_new` is half the constant. -/
lemma gatLoop_const (pixels : List ℚ) (v ε : ℚ) (hne : pixels ≠ [])
    (h : ∀ x ∈ pixels, x = v) (hv : 0 ≤ v) (hε : 0 ≤ ε) :
    ∃ τf, gatLoop pixels ε 2 v = some (τf, v / 2) := by
  have h1 : tauNew pixels v = v / 2 := tauNew_const_self pixels v hne h
  have habs : |v - v / 2| = v / 2 := by
    rw [show v - v / 2 = v / 2 by ring, abs_of_nonneg (by linarith)]
  have e2 : gatLoop pixels ε 2 v =
      if |v - tauNew pixels v| ≤ ε then some (v, tauNew pixels v)
      else gatLoop pixels ε 1 (tauNew pixels v) := rfl
  by_cases hc : v / 2 ≤ ε
  · refine ⟨v, ?_⟩
    rw [e2, h1, habs, if_pos hc]
  · have hvpos : 0 < v := by
      by_contra hle
      push_neg at hle
      exact hc (le_trans (by linarith) hε)
    have h2 : tauNew pixels (v / 2) = v / 2 :=
      tauNew_const_half pixels v hne h hvpos
    refine ⟨v / 2, ?_⟩
    have e1 : gatLoop pixels ε 1 (v / 2) =
        if |v / 2 - tauNew pixels (v / 2)| ≤ ε then
          some (v / 2, tauNew pixels (v / 2))
        else gatLoop pixels ε 0 (tauNew pixels (v / 2)) := rfl
    rw [e2, h1, habs, if_neg hc, e1, h2, sub_self, abs_zero, if_pos hε]

/-- Whenever the loop returns, the returned pair is exactly the pair the
terminating convergence check compared: the second component is one
refinement step from the first, and they are within `ε` of each other. -/
lemma gatLoop_sound (pixels : List ℚ) (ε : ℚ) :
    ∀ fuel τ τf τn, gatLoop pixels ε fuel τ = some (τf, τn) →
      τn = tauNew pixels τf ∧ |τf - τn| ≤ ε := by
  intro fuel
  induction fuel with
  | zero =>
    intro τ τf τn h
    simp [gatLoop] at h
  | succ k ih =>
    intro τ τf τn h
    have e : gatLoop pixels ε (k + 1) τ =
        if |τ - tauNew pixels τ| ≤ ε then some (τ, tauNew pixels τ)
        else gatLoop pixels ε k (tauNew pixels τ) := rfl
    rw [e] at h
    by_cases hc : |τ - tauNew pixels τ| ≤ ε
    · rw [if_pos hc] at h
      have hp := Option.some_inj.1 h
      have hτ : τ = τf := congrArg Prod.fst hp
      have hτn : tauNew pixels τ = τn := congrArg Prod.snd hp
      subst hτ
      exact ⟨hτn.symm, hτn ▸ hc⟩
    · rw [if_neg hc] at h
      exact ih _ τf τn h

/-- The odd-coercion always yields a positive value. -/
lemma mkOdd_pos (n : ℕ) : 0 < mkOdd n := by
  unfold mkOdd
  split_ifs with h
  · omega
  · omega

/-- The odd-coercion bumps an even value by one. -/
lemma mkOdd_of_even {n : ℕ} (h : n % 2 = 0) : mkOdd n = n + 1 := by
  unfold mkOdd
  rw [if_neg (by omega)]

/-- The odd-coercion keeps an odd value. -/
lemma mkOdd_of_odd {n : ℕ} (h : n % 2 = 1) : mkOdd n = n := by
  unfold mkOdd
  rw [if_pos h]

/-- In-range sample access on a rectangular constant image returns the
constant. -/
lemma pixel_const (img : List (List ℕ)) (v w : ℕ)
    (hrect : ∀ row ∈ img, row.length = w)
    (hconst : ∀ row ∈ img, ∀ p ∈ row, p = v)
    (i j : ℕ) (hi : i < img.length) (hj : j < w) :
    pixel img i j = v := by
  unfold pixel
  have h1 : img.getD i [] = img.get ⟨i, hi⟩ := by
    rw [List.getD_eq_get?, List.get?_eq_get hi, Option.getD_some]
  rw [h1]
  have hrow := List.get_mem img i hi
  have hj2 : j < (img.get ⟨i, hi⟩).length := by
    rw [hrect _ hrow]
    exact hj
  rw [List.getD_eq_get?, List.get?_eq_get hj2, Option.getD_some]
  exact hconst _ hrow _ (List.get_mem _ j hj2)

/-- The padded image has `2 * padh` extra rows. -/
lemma borderReplicate_length (img : List (List ℕ)) (padh padw : ℕ) :
    (borderReplicate img padh padw).length = img.length + 2 * padh := by
  simp [borderReplicate]

/-- Every row of the padded image has `2 * padw` extra samples. -/
lemma borderReplicate_row_length (img : List (List ℕ)) (padh padw : ℕ) :
    ∀ row ∈ borderReplicate img padh padw,
      row.length = (img.headD []).length + 2 * padw := by
  intro row hrow
  simp only [borderReplicate, List.mem_map] at hrow
  obtain ⟨i, hi, rfl⟩ := hrow
  simp

/-- Replicate-padding a non-empty rectangular constant image yields a
constant padded image. -/
lemma borderReplicate_const (img : List (List ℕ)) (v : ℕ)
    (hh : 0 < img.length) (hw : 0 < (img.headD []).length)
    (hrect : ∀ row ∈ img, row.length = (img.headD []).length)
    (hconst : ∀ row ∈ img, ∀ p ∈ row, p = v) (padh padw : ℕ) :
    ∀ row ∈ borderReplicate img padh padw, ∀ p ∈ row, p = v := by
  intro row hrow p hp
  simp only [borderReplicate, List.mem_map] at hrow
  obtain ⟨i, hi, rfl⟩ := hrow
  simp only [List.mem_map] at hp
  obtain ⟨j, hj, rfl⟩ := hp
  apply pixel_const img v _ hrect hconst
  · exact lt_of_le_of_lt (min_le_right _ _) (Nat.sub_lt hh one_pos)
  · exact lt_of_le_of_lt (min_le_right _ _) (Nat.sub_lt hw one_pos)

/-- The mean of an in-range window of a constant grid is the constant. -/
lemma windowMean_const (P : List (List ℕ)) (v : ℕ) (ys xs hw ww : ℕ)
    (hall : ∀ row ∈ P, ∀ p ∈ row, p = v)
    (hxs : ∀ row ∈ P, xs < row.length)
    (hys : ys < P.length) (hhw : 0 < hw) (hww : 0 < ww) :
    windowMean P ys xs hw ww = (v : ℚ) := by
  have hvals : ∀ p ∈ (((P.drop ys).take hw).map
      (fun row => (row.drop xs).take ww)).flatten, p = v := by
    intro p hp
    obtain ⟨sub, hsub, hpin⟩ := List.mem_flatten.1 hp
    obtain ⟨row, hrowmem, hfr⟩ := List.mem_map.1 hsub
    have hrowP : row ∈ P :=
      List.mem_of_mem_drop (List.mem_of_mem_take hrowmem)
    rw [← hfr] at hpin
    exact hall row hrowP p
      (List.mem_of_mem_drop (List.mem_of_mem_take hpin))
  have htake_ne : (P.drop ys).take hw ≠ [] := by
    apply List.ne_nil_of_length_pos
    rw [List.length_take, List.length_drop]
    exact lt_min hhw (by omega)
  obtain ⟨r, hr⟩ := List.exists_mem_of_ne_nil _ htake_ne
  have hrP : r ∈ P := List.mem_of_mem_drop (List.mem_of_mem_take hr)
  have hfr0 : (r.drop xs).take ww ≠ [] := by
    apply List.ne_nil_of_length_pos
    rw [List.length_take, List.length_drop]
    have hxr := hxs _ hrP
    exact lt_min hww (by omega)
  have hvne : (((P.drop ys).take hw).map
      (fun row => (row.drop xs).take ww)).flatten ≠ [] := by
    intro hnil
    exact hfr0 (List.flatten_eq_nil_iff.1 hnil _
      (List.mem_map_of_mem _ hr))
  have hlen0 : (((P.drop ys).take hw).map
      (fun row => (row.drop xs).take ww)).flatten.length ≠ 0 :=
    fun h0 => hvne (List.length_eq_zero.1 h0)
  have hcast : ∀ x ∈ ((((P.drop ys).take hw).map
      (fun row => (row.drop xs).take ww)).flatten.map (Nat.cast : ℕ → ℚ)),
      x = (v : ℚ) := by
    intro x hx
    obtain ⟨p, hp, hpx⟩ := List.mem_map.1 hx
    rw [← hpx, hvals p hp]
  simp only [windowMean]
  rw [if_neg hlen0, list_sum_of_const _ _ hcast, List.length_map,
    mul_div_cancel_left₀]
  exact Nat.cast_ne_zero.2 hlen0

/-- The spec-side group mean, rephrased through the group's length. -/
lemma meanOrZero_eq_lengthForm (g : List ℚ) :
    meanOrZero g = if g.length = 0 then 0 else g.sum / (g.length : ℚ) := by
  simp [meanOrZero, List.length_eq_zero]

/-- The spec-side refinement step agrees with the translated one. -/
lemma tauNewSpec_eq (pixels : List ℚ) (τ : ℚ) :
    tauNewSpec pixels τ = tauNew pixels τ := by
  have hfil : pixels.filter (not ∘ fun p => decide (p ≤ τ)) =
      pixels.filter (fun p => decide (τ < p)) :=
    List.filter_congr (fun x _ => by simp [Function.comp, ← decide_not, not_le])
  simp only [tauNewSpec, List.partition_eq_filter_filter, hfil,
    meanOrZero_eq_lengthForm, tauNew]

/-- The spec-side iteration returns exactly the second component of the
translated iteration's result. -/
lemma gatLoopSpec_eq (pixels : List ℚ) (ε : ℚ) :
    ∀ fuel τ, gatLoopSpec pixels ε fuel τ =
      (gatLoop pixels ε fuel τ).map Prod.snd := by
  intro fuel
  induction fuel with
  | zero => intro τ; rfl
  | succ k ih =>
    intro τ
    have e1 : gatLoopSpec pixels ε (k + 1) τ =
        if |τ - tauNewSpec pixels τ| ≤ ε then some (tauNewSpec pixels τ)
        else gatLoopSpec pixels ε k (tauNewSpec pixels τ) := rfl
    have e2 : gatLoop pixels ε (k + 1) τ =
        if |τ - tauNew pixels τ| ≤ ε then some (τ, tauNew pixels τ)
        else gatLoop pixels ε k (tauNew pixels τ) := rfl
    rw [e1, e2, tauNewSpec_eq]
    by_cases hc : |τ - tauNew pixels τ| ≤ ε
    · rw [if_pos hc, if_pos hc]
      rfl
    · rw [if_neg hc, if_neg hc, ih]

/-- C2: for every image and epsilon (and iteration budget), the translated
`global_adaptive_thresholding` coincides with the procedure the
specification prescribes: initialize `tau` to the median intensity,
repeatedly split at `tau` into the low group (at most `tau`) and the high
group (above `tau`), average the two group means (`0` for an empty group)
into `tau_new`, stop exactly when `|tau - tau_new| ≤ epsilon` and otherwise
continue from `tau_new`, finally binarizing against the last `tau_new`. -/
theorem global_follows_spec_steps (img : List (List ℕ)) (ε : ℚ) (fuel : ℕ) :
    global_adaptive_thresholding img ε fuel =
      global_adaptive_thresholding_spec img ε fuel := by
  unfold global_adaptive_thresholding global_adaptive_thresholding_spec
  rw [gatLoopSpec_eq, Option.map_map]
  rfl

/-- C1 (amended): on a non-empty constant image of value `v`, for any
positive epsilon, the global method terminates within two iterations, the
final `tau_new` is `v / 2` (the empty high group contributes mean `0`), and
the output is the all-`255` image when `0 < v` and the all-zero image when
`v = 0`. -/
theorem global_const_image (img : List (List ℕ)) (v : ℕ) (ε : ℚ)
    (hne : pixelsOf img ≠ [])
    (hconst : ∀ row ∈ img, ∀ p ∈ row, p = v) (hε : 0 < ε) :
    ∃ τf, gatLoop (pixelsOf img) ε 2 (median (pixelsOf img)) =
        some (τf, (v : ℚ) / 2) ∧
      global_adaptive_thresholding img ε 2 =
        some (img.map (fun row => row.map (fun _ => if 0 < v then 255 else 0))) := by
  have hpx : ∀ x ∈ pixelsOf img, x = (v : ℚ) := pixelsOf_const img v hconst
  have hmed : median (pixelsOf img) = (v : ℚ) := median_const _ _ hne hpx
  obtain ⟨τf, hloop⟩ := gatLoop_const (pixelsOf img) (v : ℚ) ε hne hpx
    (Nat.cast_nonneg v) (le_of_lt hε)
  refine ⟨τf, ?_, ?_⟩
  · rw [hmed]
    exact hloop
  · unfold global_adaptive_thresholding
    rw [hmed, hloop, Option.map_some']
    congr 1
    unfold binarize
    apply List.map_congr_left
    intro row hrow
    apply List.map_congr_left
    intro p hp
    rw [hconst row hrow p hp]
    by_cases hv : 0 < v
    · rw [if_pos hv, if_pos (half_lt_self (by exact_mod_cast hv))]
    · have hv0 : v = 0 := by omega
      subst hv0
      norm_num

/-- Witness for `global_const_image` at the 1×1 image `[[200]]`, `ε = 1`. -/
theorem global_const_image_witness :
    ∃ τf, gatLoop (pixelsOf [[200]]) 1 2 (median (pixelsOf [[200]])) =
        some (τf, ((200 : ℕ) : ℚ) / 2) ∧
      global_adaptive_thresholding [[200]] 1 2 =
        some ([[200]].map (fun row => row.map
          (fun _ => if 0 < 200 then 255 else 0))) :=
  global_const_image [[200]] 200 1 (by simp [pixelsOf]) (by decide)
    (by norm_num)

/-- C1 counterexample: on the constant image `[[200]]` with `ε = 1`, the
global method returns the all-`255` image, not the all-zero image the claim
predicts, and the converged `tau_new` is `100`, not `200`. -/
theorem global_const_image_counterexample :
    global_adaptive_thresholding [[200]] 1 2 = some [[255]] ∧
      some [[255]] ≠ some ([[0]] : List (List ℕ)) ∧
      gatLoop (pixelsOf [[200]]) 1 2 (median (pixelsOf [[200]])) =
        some (100, 100) := by
  refine ⟨?_, by decide, ?_⟩
  · norm_num [global_adaptive_thresholding, gatLoop, tauNew, binarize, median,
      pixelsOf, List.insertionSort, List.orderedInsert, List.filter_cons, abs]
  · norm_num [gatLoop, tauNew, median, pixelsOf, List.insertionSort,
      List.orderedInsert, List.filter_cons, abs]

/-- C9 (amended): on a non-empty constant image of value `v` and any
non-negative epsilon the loop still terminates, within two iterations, even
though one of the two groups is empty in every iteration; but the first
delta is `|v - v/2| = v/2`, which is `0` immediately only when `v = 0`:
the initial threshold is the median `v` and the first `tau_new` is `v/2`. -/
theorem global_const_loop_terminates (img : List (List ℕ)) (v : ℕ) (ε : ℚ)
    (hne : pixelsOf img ≠ [])
    (hconst : ∀ row ∈ img, ∀ p ∈ row, p = v) (hε : 0 ≤ ε) :
    median (pixelsOf img) = (v : ℚ) ∧
      tauNew (pixelsOf img) (median (pixelsOf img)) = (v : ℚ) / 2 ∧
      ∃ τf, gatLoop (pixelsOf img) ε 2 (median (pixelsOf img)) =
        some (τf, (v : ℚ) / 2) := by
  have hpx : ∀ x ∈ pixelsOf img, x = (v : ℚ) := pixelsOf_const img v hconst
  have hmed : median (pixelsOf img) = (v : ℚ) := median_const _ _ hne hpx
  refine ⟨hmed, ?_, ?_⟩
  · rw [hmed]
    exact tauNew_const_self _ _ hne hpx
  · obtain ⟨τf, hloop⟩ := gatLoop_const (pixelsOf img) (v : ℚ) ε hne hpx
      (Nat.cast_nonneg v) hε
    refine ⟨τf, ?_⟩
    rw [hmed]
    exact hloop

/-- Witness for `global_const_loop_terminates` at `[[200]]`, `ε = 0`. -/
theorem global_const_loop_terminates_witness :
    median (pixelsOf [[200]]) = ((200 : ℕ) : ℚ) ∧
      tauNew (pixelsOf [[200]]) (median (pixelsOf [[200]])) =
        ((200 : ℕ) : ℚ) / 2 ∧
      ∃ τf, gatLoop (pixelsOf [[200]]) 0 2 (median (pixelsOf [[200]])) =
        some (τf, ((200 : ℕ) : ℚ) / 2) :=
  global_const_loop_terminates [[200]] 200 0 (by simp [pixelsOf]) (by decide)
    le_rfl

/-- C9 counterexample: on the constant image `[[200]]` the first iteration's
delta is `|200 - 100| = 100 ≠ 0`, so with the non-negative tolerance
`ε = 0` the convergence inequality is not satisfied immediately: a single
iteration of the loop does not terminate. -/
theorem global_const_delta_counterexample :
    |median (pixelsOf [[200]]) -
        tauNew (pixelsOf [[200]]) (median (pixelsOf [[200]]))| ≠ 0 ∧
      gatLoop (pixelsOf [[200]]) 0 1 (median (pixelsOf [[200]])) = none := by
  constructor
  · norm_num [tauNew, median, pixelsOf, List.insertionSort,
      List.orderedInsert, List.filter_cons, abs]
  · norm_num [gatLoop, tauNew, median, pixelsOf, List.insertionSort,
      List.orderedInsert, List.filter_cons, abs]

/-- C3: whenever the global loop terminates with break-time pair
`(tau, tau_new)`, the output binarizes every pixel against `tau_new` — the
value freshly computed in the terminating iteration — where `tau_new` is
one refinement step from `tau` and the pair satisfied the convergence
check; moreover there is a terminating run on which binarizing against
`tau` instead would give a different image, so the asymmetry matters. -/
theorem global_binarizes_against_tau_new (img : List (List ℕ)) (ε : ℚ)
    (fuel : ℕ) (τf τn : ℚ)
    (h : gatLoop (pixelsOf img) ε fuel (median (pixelsOf img)) =
      some (τf, τn)) :
    global_adaptive_thresholding img ε fuel = some (binarize img τn) ∧
      τn = tauNew (pixelsOf img) τf ∧ |τf - τn| ≤ ε ∧
      ∃ img0 ε0 fl τf0 τn0,
        gatLoop (pixelsOf img0) ε0 fl (median (pixelsOf img0)) =
            some (τf0, τn0) ∧
          global_adaptive_thresholding img0 ε0 fl =
            some (binarize img0 τn0) ∧
          binarize img0 τn0 ≠ binarize img0 τf0 := by
  obtain ⟨hstep, hconv⟩ := gatLoop_sound (pixelsOf img) ε fuel _ τf τn h
  refine ⟨?_, hstep, hconv, [[200]], 150, 1, 200, 100, ?_, ?_, ?_⟩
  · unfold global_adaptive_thresholding
    rw [h]
    rfl
  · norm_num [gatLoop, tauNew, median, pixelsOf, List.insertionSort,
      List.orderedInsert, List.filter_cons, abs]
  · norm_num [global_adaptive_thresholding, gatLoop, tauNew, binarize, median,
      pixelsOf, List.insertionSort, List.orderedInsert, List.filter_cons, abs]
  · norm_num [binarize]

/-- Witness for `global_binarizes_against_tau_new` at `[[200]]`, `ε = 150`,
one iteration: the loop breaks immediately comparing `tau = 200` with
`tau_new = 100`, and the output binarizes against `100`. -/
theorem global_binarizes_against_tau_new_witness :
    global_adaptive_thresholding [[200]] 150 1 =
        some (binarize [[200]] 100) ∧
      (100 : ℚ) = tauNew (pixelsOf [[200]]) 200 ∧
      |(200 : ℚ) - 100| ≤ 150 ∧
      ∃ img0 ε0 fl τf0 τn0,
        gatLoop (pixelsOf img0) ε0 fl (median (pixelsOf img0)) =
            some (τf0, τn0) ∧
          global_adaptive_thresholding img0 ε0 fl =
            some (binarize img0 τn0) ∧
          binarize img0 τn0 ≠ binarize img0 τf0 :=
  global_binarizes_against_tau_new [[200]] 150 1 200 100
    (by norm_num [gatLoop, tauNew, median, pixelsOf, List.insertionSort,
      List.orderedInsert, List.filter_cons, abs])

/-- C6: on the image with intensities `{10, 10, 10, 200, 200, 200}` and
`ε = 1`, the global method converges immediately at the threshold `105`
(the median), and binarizes the three `10`s to `0` and the three `200`s to
`255`. -/
theorem global_two_cluster_scenario :
    gatLoop (pixelsOf [[10,10,10,200,200,200]]) 1 1
        (median (pixelsOf [[10,10,10,200,200,200]])) = some (105, 105) ∧
      global_adaptive_thresholding [[10,10,10,200,200,200]] 1 1 =
        some [[0,0,0,255,255,255]] := by
  constructor
  · norm_num [gatLoop, tauNew, median, pixelsOf, List.insertionSort,
      List.orderedInsert, List.filter_cons, abs]
  · norm_num [global_adaptive_thresholding, gatLoop, tauNew, binarize, median,
      pixelsOf, List.insertionSort, List.orderedInsert, List.filter_cons, abs]

/-- C4 (code bug): on the 2×2 image `[[0,0],[0,100]]` with a 3×3 window,
the translated code places the window's top-left corner at
`(x + pad_w, y + pad_h)` instead of `(x, y)`, so the window is not centered
on the pixel and is silently clipped at the bottom/right border; the code
outputs the all-zero image while the specification's centered window
yields `255` at the bright corner pixel. -/
theorem local_window_offset_bug :
    local_adaptive_thresholding [[0,0],[0,100]] 3 3 = [[0,0],[0,0]] ∧
      local_adaptive_thresholding_spec [[0,0],[0,100]] 3 3 =
        [[0,0],[0,255]] ∧
      ([[0,0],[0,0]] : List (List ℕ)) ≠ [[0,0],[0,255]] := by
  refine ⟨?_, ?_, by decide⟩
  · norm_num [local_adaptive_thresholding, localOdd, mkOdd, borderReplicate,
      windowMean, pixel, List.range_succ]
  · norm_num [local_adaptive_thresholding_spec, localOddSpec, mkOdd,
      borderReplicate, windowMean, pixel, List.range_succ]

/-- C5: with even positive window dimensions the local thresholder behaves
exactly as with the next odd dimensions upward. -/
theorem local_even_window_coercion (img : List (List ℕ)) (w_w h_w : ℕ)
    (hwe : w_w % 2 = 0) (hhe : h_w % 2 = 0)
    (hwp : 0 < w_w) (hhp : 0 < h_w) :
    local_adaptive_thresholding img w_w h_w =
      local_adaptive_thresholding img (w_w + 1) (h_w + 1) := by
  unfold local_adaptive_thresholding
  rw [mkOdd_of_even hwe, mkOdd_of_even hhe,
    mkOdd_of_odd (by omega : (w_w + 1) % 2 = 1),
    mkOdd_of_odd (by omega : (h_w + 1) % 2 = 1)]

/-- Witness for `local_even_window_coercion`: the specification's own
instance, `w_w = h_w = 50` behaving as `51 × 51`. -/
theorem local_even_window_coercion_witness :
    local_adaptive_thresholding [[7]] 50 50 =
      local_adaptive_thresholding [[7]] 51 51 :=
  local_even_window_coercion [[7]] 50 50 (by decide) (by decide) (by decide)
    (by decide)

/-- C7: every sample of a terminating global output, and of any local
output, is exactly `0` or `255`. -/
theorem outputs_binary :
    (∀ (img : List (List ℕ)) (ε : ℚ) (fuel : ℕ) (out : List (List ℕ)),
        global_adaptive_thresholding img ε fuel = some out →
        ∀ row ∈ out, ∀ p ∈ row, p = 0 ∨ p = 255) ∧
      (∀ (img : List (List ℕ)) (w_w h_w : ℕ),
        ∀ row ∈ local_adaptive_thresholding img w_w h_w,
        ∀ p ∈ row, p = 0 ∨ p = 255) := by
  constructor
  · intro img ε fuel out hout row hrow p hp
    unfold global_adaptive_thresholding at hout
    cases hg : gatLoop (pixelsOf img) ε fuel (median (pixelsOf img)) with
    | none =>
      rw [hg] at hout
      simp at hout
    | some r =>
      rw [hg, Option.map_some'] at hout
      have hbe : out = binarize img r.2 := (Option.some_inj.1 hout).symm
      subst hbe
      simp only [binarize, List.mem_map] at hrow
      obtain ⟨row0, hrow0, rfl⟩ := hrow
      obtain ⟨p0, hp0, rfl⟩ := List.mem_map.1 hp
      split_ifs
      · right
        rfl
      · left
        rfl
  · intro img w_w h_w row hrow p hp
    simp only [local_adaptive_thresholding, localOdd, List.mem_map] at hrow
    obtain ⟨y, hy, rfl⟩ := hrow
    obtain ⟨x, hx, rfl⟩ := List.mem_map.1 hp
    split_ifs
    · right
      rfl
    · left
      rfl

/-- Witness for `outputs_binary`: the `255` sample of the global output on
`[[200]]` and the `0` sample of the local output on `[[5]]`. -/
theorem outputs_binary_witness :
    ((255 : ℕ) = 0 ∨ (255 : ℕ) = 255) ∧
      ((0 : ℕ) = 0 ∨ (0 : ℕ) = 255) := by
  constructor
  · apply outputs_binary.1 [[200]] 1 2 [[255]] ?_ [255] ?_ 255 ?_
    · norm_num [global_adaptive_thresholding, gatLoop, tauNew, binarize,
        median, pixelsOf, List.insertionSort, List.orderedInsert,
        List.filter_cons, abs]
    · simp
    · simp
  · apply outputs_binary.2 [[5]] 3 3 [0] ?_ 0 ?_
    · have h : local_adaptive_thresholding [[5]] 3 3 = [[0]] := by
        norm_num [local_adaptive_thresholding, localOdd, mkOdd,
          borderReplicate, windowMean, pixel, List.range_succ]
      rw [h]
      simp
    · simp

/-- C8: terminating global outputs have exactly the input's row count and
row lengths, and local outputs have the input's row count with every row as
long as the input's first row (its width, for a rectangular image). -/
theorem outputs_preserve_dimensions :
    (∀ (img : List (List ℕ)) (ε : ℚ) (fuel : ℕ) (out : List (List ℕ)),
        global_adaptive_thresholding img ε fuel = some out →
        out.length = img.length ∧
          out.map List.length = img.map List.length) ∧
      (∀ (img : List (List ℕ)) (w_w h_w : ℕ),
        (local_adaptive_thresholding img w_w h_w).length = img.length ∧
          ∀ row ∈ local_adaptive_thresholding img w_w h_w,
            row.length = (img.headD []).length) := by
  constructor
  · intro img ε fuel out hout
    unfold global_adaptive_thresholding at hout
    cases hg : gatLoop (pixelsOf img) ε fuel (median (pixelsOf img)) with
    | none =>
      rw [hg] at hout
      simp at hout
    | some r =>
      rw [hg, Option.map_some'] at hout
      have hbe : out = binarize img r.2 := (Option.some_inj.1 hout).symm
      subst hbe
      constructor
      · simp [binarize]
      · simp [binarize, List.map_map, Function.comp]
  · intro img w_w h_w
    constructor
    · simp [local_adaptive_thresholding, localOdd]
    · intro row hrow
      simp only [local_adaptive_thresholding, localOdd, List.mem_map] at hrow
      obtain ⟨y, hy, rfl⟩ := hrow
      simp

/-- Witness for `outputs_preserve_dimensions` at the global run on
`[[200]]` and the local run on `[[5]]`. -/
theorem outputs_preserve_dimensions_witness :
    (([[255]] : List (List ℕ)).length = ([[200]] : List (List ℕ)).length ∧
        ([[255]] : List (List ℕ)).map List.length =
          ([[200]] : List (List ℕ)).map List.length) ∧
      (local_adaptive_thresholding [[5]] 3 3).length =
        ([[5]] : List (List ℕ)).length := by
  constructor
  · apply outputs_preserve_dimensions.1 [[200]] 1 2 [[255]]
    norm_num [global_adaptive_thresholding, gatLoop, tauNew, binarize,
      median, pixelsOf, List.insertionSort, List.orderedInsert,
      List.filter_cons, abs]
  · exact (outputs_preserve_dimensions.2 [[5]] 3 3).1

/-- C10: on a rectangular constant image, replicate padding keeps every
padded sample at the constant, so every window mean equals the constant,
the strict comparison `v > v` fails everywhere, and the local method
returns the all-zero image of the input's dimensions. -/
theorem local_const_image_all_zero (img : List (List ℕ)) (v w_w h_w : ℕ)
    (hwp : 0 < w_w) (hhp : 0 < h_w)
    (hrect : ∀ row ∈ img, row.length = (img.headD []).length)
    (hconst : ∀ row ∈ img, ∀ p ∈ row, p = v) :
    local_adaptive_thresholding img w_w h_w =
      List.replicate img.length
        (List.replicate (img.headD []).length 0) := by
  simp only [local_adaptive_thresholding, localOdd]
  apply List.eq_replicate.2
  constructor
  · simp
  · intro row hrow
    obtain ⟨y, hy, rfl⟩ := List.mem_map.1 hrow
    apply List.eq_replicate.2
    constructor
    · simp
    · intro p hp
      obtain ⟨x, hx, rfl⟩ := List.mem_map.1 hp
      have hy0 : y < img.length := List.mem_range.1 hy
      have hx0 : x < (img.headD []).length := List.mem_range.1 hx
      have hh : 0 < img.length := lt_of_le_of_lt (Nat.zero_le y) hy0
      have hw0 : 0 < (img.headD []).length := lt_of_le_of_lt (Nat.zero_le x) hx0
      have hpix : pixel img y x = v :=
        pixel_const img v _ hrect hconst y x hy0 hx0
      have hmean : windowMean
          (borderReplicate img (mkOdd h_w / 2) (mkOdd w_w / 2))
          (y + mkOdd h_w / 2) (x + mkOdd w_w / 2) (mkOdd h_w) (mkOdd w_w) =
          (v : ℚ) := by
        apply windowMean_const
        · exact borderReplicate_const img v hh hw0 hrect hconst _ _
        · intro prow hprow
          rw [borderReplicate_row_length img _ _ prow hprow]
          omega
        · rw [borderReplicate_length]
          omega
        · exact mkOdd_pos h_w
        · exact mkOdd_pos w_w
      rw [hmean, hpix, if_neg (lt_irrefl _)]

/-- Witness for `local_const_image_all_zero` at the constant 2×2 image of
`7`s with a 3×3 window. -/
theorem local_const_image_all_zero_witness :
    local_adaptive_thresholding [[7,7],[7,7]] 3 3 =
      List.replicate ([[7,7],[7,7]] : List (List ℕ)).length
        (List.replicate (([[7,7],[7,7]] : List (List ℕ)).headD []).length 0) :=
  local_const_image_all_zero [[7,7],[7,7]] 7 3 3 (by decide) (by decide)
    (by decide) (by decide)
